import Mathlib

/-!
Shallow embedding of the HT16K33 LED-driver/keyscan library (src/HT16K33.cpp).

The driver state is an 8-element buffer of 16-bit row words plus three
orientation flags.  Bus output is modelled as the list of bytes written in a
transaction; bus input (Wire.read) is modelled as a list of bytes supplied by
the device, consumed in order.  Machine integers are Nat with explicit
`% 65536` at the points where the C code stores an int expression into a
uint16_t.
-/

namespace HT16K33

/-- Modelled from the spec: the repository's header `HT16K33.h` is not under
src/; it defines the command-byte constants of the register map (§6 of the
spec).  The spec names the commands but gives no numeric values, so the
chip-datasheet values are used here; no claim below depends on the numeric
value of any of these constants. -/
def HT16K33_CMD_RAM : Nat := 0x00

/-- Modelled from the spec: key-data read command address, from the missing
header `HT16K33.h` (see `HT16K33_CMD_RAM`). -/
def HT16K33_CMD_KEYS : Nat := 0x40

/-- Modelled from the spec: ROW/INT pin configuration command, from the
missing header `HT16K33.h` (see `HT16K33_CMD_RAM`). -/
def HT16K33_CMD_ROWINT : Nat := 0xA0

/-- One iteration block of `_flip_uint16`'s loop (src/HT16K33.cpp:18-22):
`out <<= 1; out |= in & 1; in >>= 1;` with `out` a uint16_t (the left shift
truncates mod 2^16).  The first argument is the number of iterations left. -/
def flipAux : Nat → Nat → Nat → Nat
  | 0, _, out => out
  | n + 1, inp, out => flipAux n (inp >>> 1) ((out <<< 1) % 65536 ||| (inp &&& 1))

/-- `_flip_uint16` (src/HT16K33.cpp:14-25): reverse the 16 bits of a word by
shift-and-mask iteration.  The `% 65536` on the argument models the uint16_t
parameter type. -/
def _flip_uint16 (inp : Nat) : Nat := flipAux 16 (inp % 65536) 0

/-- Driver state: the 8×16-bit pixel buffer `_buffer` and the three
orientation flags (src/HT16K33.cpp fields `_buffer`, `_reversed`,
`_vFlipped`, `_hFlipped`). -/
structure State where
  buffer : Fin 8 → Nat
  reversed : Bool
  vFlipped : Bool
  hFlipped : Bool

/-- Pointwise update of the pixel buffer at one row index. -/
def updFin8 (b : Fin 8 → Nat) (i : Fin 8) (v : Nat) : Fin 8 → Nat :=
  fun j => if j = i then v else b j

theorem and_seven_lt (n : Nat) : n &&& 7 < 8 := by
  have h := Nat.and_lt_two_pow n (show (7 : Nat) < 2 ^ 3 by norm_num)
  omega

/-- `resetOrientation` (src/HT16K33.cpp:172-177). -/
def resetOrientation (s : State) : State :=
  { s with reversed := false, vFlipped := false, hFlipped := false }

/-- `reverse` (src/HT16K33.cpp:182-185). -/
def reverse (s : State) : State := { s with reversed := !s.reversed }

/-- `flipVertical` (src/HT16K33.cpp:190-193). -/
def flipVertical (s : State) : State := { s with vFlipped := !s.vFlipped }

/-- `flipHorizontal` (src/HT16K33.cpp:198-201). -/
def flipHorizontal (s : State) : State := { s with hFlipped := !s.hFlipped }

/-- `clear` (src/HT16K33.cpp:207-212): the loop `for i < 8: _buffer[i] = 0`. -/
def clear (s : State) : State :=
  { s with buffer := (List.range 8).foldl (fun b i => updFin8 b ⟨i % 8, Nat.mod_lt _ (by omega)⟩ 0) s.buffer }

/-- `setPixel` (src/HT16K33.cpp:217-231).  Arguments are the uint8_t values
received by the function; masking `& 0x0F`, `& 0x07`, `& 0x01` is as in the
source, and the store into the uint16_t buffer element truncates mod 2^16. -/
def setPixel (s : State) (col row val : Nat) : State :=
  let col := col &&& 0x0F
  let row : Fin 8 := ⟨row &&& 0x07, and_seven_lt row⟩
  let val := val &&& 0x01
  if val = 1 then
    { s with buffer := updFin8 s.buffer row ((s.buffer row ||| (1 <<< col)) % 65536) }
  else
    { s with buffer := updFin8 s.buffer row ((s.buffer row &&& (65535 ^^^ (1 <<< col))) % 65536) }

/-- `setRow` (src/HT16K33.cpp:236-243). -/
def setRow (s : State) (row value : Nat) : State :=
  { s with buffer := updFin8 s.buffer ⟨row &&& 0x07, and_seven_lt row⟩ (value % 65536) }

/-- Modelled from the spec: the `Sprite16` class lives in a header that is
not under src/.  Per §3 of the spec it is a read-only, row-addressable
bitmap, each row a 16-bit word, with declared height ≤ 8; the height bound
is carried as a hypothesis by the theorems that need it. -/
structure Sprite16 where
  height : Nat
  readRow : Nat → Nat

/-- Buffer effect of `drawSprite16`'s loop (src/HT16K33.cpp:262-264) run for
`h` iterations: `_buffer[(row+rowOffset) & 0x07] |= (readRow(row) << colOffset) & 0xFFFF`,
with the compound assignment into uint16_t truncating mod 2^16. -/
def drawBuf (sp : Sprite16) (colOffset rowOffset : Nat) (h : Nat) (b : Fin 8 → Nat) : Fin 8 → Nat :=
  (List.range h).foldl
    (fun bb row =>
      updFin8 bb ⟨(row + rowOffset) % 8, Nat.mod_lt _ (by omega)⟩
        ((bb ⟨(row + rowOffset) % 8, Nat.mod_lt _ (by omega)⟩ |||
          ((sp.readRow row <<< colOffset) &&& 0xFFFF)) % 65536)) b

/-- `drawSprite16` (src/HT16K33.cpp:259-266). -/
def drawSprite16 (s : State) (sp : Sprite16) (colOffset rowOffset : Nat) : State :=
  { s with buffer := drawBuf sp colOffset rowOffset sp.height s.buffer }

/-- `writeRow` (src/HT16K33.cpp:294-314): the two data bytes emitted for one
physical row slot. -/
def writeRow (s : State) (row : Fin 8) : List Nat :=
  let row : Fin 8 := if s.vFlipped then ⟨7 - row.val, by omega⟩ else row
  let out := s.buffer row
  let out := if s.hFlipped then _flip_uint16 out else out
  if s.reversed then [out >>> 8, out &&& 0xFF] else [out &&& 0xFF, out >>> 8]

/-- `write` (src/HT16K33.cpp:279-289): the byte stream of the display-RAM
transaction — the command byte, then the two bytes of each of the 8 physical
row slots in ascending order. -/
def write (s : State) : List Nat :=
  HT16K33_CMD_RAM :: (List.finRange 8).flatMap (fun row => writeRow s row)

/-- Boolean-to-int conversion applied implicitly by C when a bool enters
integer arithmetic. -/
def b2n (b : Bool) : Nat := if b then 1 else 0

/-- The command byte sent by `setRowIntPin` (src/HT16K33.cpp:102):
`HT16K33_CMD_ROWINT | (act & row_int) << 1 | row_int`. -/
def setRowIntPinByte (row_int act : Bool) : Nat :=
  HT16K33_CMD_ROWINT ||| ((b2n act &&& b2n row_int) <<< 1) ||| b2n row_int

/-- Pointwise update of the caller's 3-element key buffer. -/
def updFin3 (o : Fin 3 → Nat) (i : Fin 3) (v : Nat) : Fin 3 → Nat :=
  fun j => if j = i then v else o j

/-- Result of a `getKeyData` call (src/HT16K33.cpp:73-87). `regSelect` is the
byte written in the register-select transaction, `requestCount` the number of
bytes requested from the device, and `out` the caller's array after the call. -/
structure KeyDataResult where
  regSelect : List Nat
  requestCount : Nat
  out : Fin 3 → Nat

/-- `getKeyData` (src/HT16K33.cpp:73-87), with the device's response modelled
as the list `bytes` consumed in order by `Wire.read()`.  The decode loop runs
for rows 0 and 1 only (src/HT16K33.cpp:83); each iteration reads the low byte
first, then the high byte, and the store into the uint16_t array element
truncates mod 2^16. -/
def getKeyData (bytes : List Nat) (o : Fin 3 → Nat) : KeyDataResult :=
  { regSelect := [HT16K33_CMD_KEYS]
    requestCount := 6
    out := updFin3
      (updFin3 o 0 ((bytes.getD 1 0 <<< 8 ||| bytes.getD 0 0) % 65536))
      1 ((bytes.getD 3 0 <<< 8 ||| bytes.getD 2 0) % 65536) }

/-! ### Bit-level helper lemmas -/

theorem and_fifteen_eq_mod (n : Nat) : n &&& 15 = n % 16 := by
  have h := Nat.and_pow_two_sub_one_eq_mod n 4
  norm_num at h
  exact h

theorem and_seven_eq_mod (n : Nat) : n &&& 7 = n % 8 := by
  have h := Nat.and_pow_two_sub_one_eq_mod n 3
  norm_num at h
  exact h

theorem and_255_eq_mod (n : Nat) : n &&& 255 = n % 256 := by
  have h := Nat.and_pow_two_sub_one_eq_mod n 8
  norm_num at h
  exact h

/-- Shifting `a` past the width of `b` and or-ing is plain addition. -/
theorem shiftLeft_or_eq_add (a b n : Nat) (hb : b < 2 ^ n) :
    (a <<< n) ||| b = a * 2 ^ n + b := by
  apply Nat.eq_of_testBit_eq
  intro i
  rw [Nat.testBit_or, Nat.testBit_shiftLeft, Nat.mul_comm a (2 ^ n),
    Nat.testBit_mul_pow_two_add a hb i]
  by_cases h : i < n
  · simp [h, Nat.not_le.mpr h]
  · have hle : n ≤ i := Nat.le_of_not_lt h
    have hbi : b.testBit i = false :=
      Nat.testBit_lt_two_pow (Nat.lt_of_lt_of_le hb (Nat.pow_le_pow_right (by omega) hle))
    simp [h, hle, hbi, ge_iff_le]

/-- Mathematical 16-bit reversal: `revBits n x` reverses the low `n` bits of
`x` (bit `i` of the result is bit `n-1-i` of `x`). -/
def revBits : Nat → Nat → Nat
  | 0, _ => 0
  | n + 1, x => ((x &&& 1) <<< n) ||| revBits n (x >>> 1)

theorem revBits_lt (n : Nat) : ∀ x, revBits n x < 2 ^ n := by
  induction n with
  | zero => intro x; simp [revBits]
  | succ n ih =>
    intro x
    have h1 : (x &&& 1) <<< n < 2 ^ (n + 1) := by
      have : x &&& 1 < 2 := by
        have := Nat.and_lt_two_pow x (show (1 : Nat) < 2 ^ 1 by norm_num)
        omega
      calc (x &&& 1) <<< n = (x &&& 1) * 2 ^ n := Nat.shiftLeft_eq _ _
        _ < 2 * 2 ^ n := by
            exact Nat.mul_lt_mul_of_lt_of_le this (Nat.le_refl _) (Nat.pos_pow_of_pos n (by omega))
        _ = 2 ^ (n + 1) := by ring
    have h2 : revBits n (x >>> 1) < 2 ^ (n + 1) := by
      have := ih (x >>> 1)
      have : (2 : Nat) ^ n ≤ 2 ^ (n + 1) := Nat.pow_le_pow_right (by omega) (by omega)
      omega
    exact Nat.or_lt_two_pow h1 h2

theorem testBit_revBits (n : Nat) : ∀ x i, i < n →
    (revBits n x).testBit i = x.testBit (n - 1 - i) := by
  induction n with
  | zero => intro x i h; omega
  | succ n ih =>
    intro x i h
    rw [revBits, Nat.testBit_or, Nat.testBit_shiftLeft]
    by_cases hi : i = n
    · have hlow : (revBits n (x >>> 1)).testBit i = false := by
        rw [hi]; exact Nat.testBit_lt_two_pow (revBits_lt n _)
      have hge : n ≤ i := by omega
      have h0 : n + 1 - 1 - i = 0 := by omega
      have hin : i - n = 0 := by omega
      simp [hlow, hge, h0, hin, ge_iff_le, Nat.testBit_and]
    · have hlt : i < n := by omega
      have hns : ¬ n ≤ i := by omega
      rw [ih (x >>> 1) i hlt, Nat.testBit_shiftRight]
      have harg : 1 + (n - 1 - i) = n + 1 - 1 - i := by omega
      simp [hns, harg, ge_iff_le]

theorem revBits_involutive (n : Nat) (x : Nat) (hx : x < 2 ^ n) :
    revBits n (revBits n x) = x := by
  apply Nat.eq_of_testBit_eq
  intro i
  by_cases h : i < n
  · rw [testBit_revBits n _ i h, testBit_revBits n x (n - 1 - i) (by omega)]
    congr 1
    omega
  · have hle : n ≤ i := Nat.le_of_not_lt h
    have hpow : (2 : Nat) ^ n ≤ 2 ^ i := Nat.pow_le_pow_right (by omega) hle
    rw [Nat.testBit_lt_two_pow (Nat.lt_of_lt_of_le (revBits_lt n _) hpow),
      Nat.testBit_lt_two_pow (Nat.lt_of_lt_of_le hx hpow)]

/-- The loop of `_flip_uint16` computes the accumulator shifted past the
remaining iterations plus the reversal of the low bits of the input: while
the accumulator is small enough, the uint16_t truncation never fires. -/
theorem flipAux_eq (n : Nat) : ∀ inp out, n ≤ 16 → out < 2 ^ (16 - n) →
    flipAux n inp out = out * 2 ^ n + revBits n inp := by
  induction n with
  | zero => intro inp out _ _; simp [flipAux, revBits]
  | succ n ih =>
    intro inp out hn hout
    have hsh : out <<< 1 = 2 * out := by rw [Nat.shiftLeft_eq]; ring
    have hpow : (2 : Nat) ^ (16 - n) ≤ 2 ^ 16 := Nat.pow_le_pow_right (by omega) (by omega)
    have hsplit : (2 : Nat) ^ (16 - n) = 2 * 2 ^ (16 - (n + 1)) := by
      have he : 16 - n = (16 - (n + 1)) + 1 := by omega
      rw [he, Nat.pow_succ]
      ring
    have hlt : 2 * out < 2 ^ (16 - n) := by omega
    have hmod : (out <<< 1) % 65536 = 2 * out := by
      rw [hsh]
      exact Nat.mod_eq_of_lt (by norm_num at hpow ⊢; omega)
    have hbit : inp &&& 1 < 2 ^ 1 := by
      have := Nat.and_lt_two_pow inp (show (1 : Nat) < 2 ^ 1 by norm_num)
      omega
    rw [flipAux, hmod]
    have hor : 2 * out ||| (inp &&& 1) = out <<< 1 ||| (inp &&& 1) := by rw [hsh]
    rw [hor, shiftLeft_or_eq_add out (inp &&& 1) 1 hbit]
    have hout2 : out * 2 ^ 1 + (inp &&& 1) < 2 ^ (16 - n) := by
      have : out * 2 ^ 1 = 2 * out := by ring
      omega
    rw [ih (inp >>> 1) _ (by omega) (by omega)]
    rw [revBits, shiftLeft_or_eq_add (inp &&& 1) _ n (revBits_lt n _)]
    ring

theorem flip_uint16_eq_revBits (x : Nat) : _flip_uint16 x = revBits 16 (x % 65536) := by
  rw [_flip_uint16, flipAux_eq 16 (x % 65536) 0 (by omega) (by norm_num)]
  ring

/-! ### The serialization stages of `writeRow`, stated separately -/

/-- Stage 1 of row serialization: vertical index remap. -/
def vStage (vFlipped : Bool) (row : Fin 8) : Fin 8 :=
  if vFlipped then ⟨7 - row.val, by omega⟩ else row

/-- Stage 2 of row serialization: horizontal bit reversal of the row word. -/
def hStage (hFlipped : Bool) (w : Nat) : Nat :=
  if hFlipped then _flip_uint16 w else w

/-- Stage 3 of row serialization: byte-pair order selection. -/
def byteStage (reversed : Bool) (w : Nat) : List Nat :=
  if reversed then [w >>> 8, w &&& 0xFF] else [w &&& 0xFF, w >>> 8]

/-- Example state of §8 of the spec: buffer row 3 holds 0b0000000000000101,
all other rows 0, all orientation flags false. -/
def exampleBufferRow3 : State :=
  { buffer := fun i => if i.val = 3 then 5 else 0
    reversed := false
    vFlipped := false
    hFlipped := false }

/-- C1: `writeRow` applies exactly three stages in order — vertical index
remap `row → 7 - row` if `vFlipped`, then 16-bit bit reversal if `hFlipped`,
then byte order selection (low byte first unless `reversed`) — and on buffer
row 3 = 0x0005 emits bytes 0x05, 0x00 with all flags false; 0x00, 0x05 with
`reversed`; and 0x00, 0xA0 with `hFlipped`. -/
theorem writeRow_three_stage_pipeline :
    (∀ (s : State) (row : Fin 8),
      writeRow s row =
        byteStage s.reversed (hStage s.hFlipped (s.buffer (vStage s.vFlipped row)))) ∧
    writeRow exampleBufferRow3 3 = [0x05, 0x00] ∧
    writeRow { exampleBufferRow3 with reversed := true } 3 = [0x00, 0x05] ∧
    writeRow { exampleBufferRow3 with hFlipped := true } 3 = [0x00, 0xA0] :=
  ⟨fun _ _ => rfl, by decide, by decide, by decide⟩

/-- C4: the 16-bit bit-reversal `_flip_uint16` is self-inverse on every one
of the 65536 possible 16-bit inputs. -/
theorem flip_uint16_involutive (x : Nat) (hx : x < 65536) :
    _flip_uint16 (_flip_uint16 x) = x := by
  have h16 : (65536 : Nat) = 2 ^ 16 := by norm_num
  rw [flip_uint16_eq_revBits, flip_uint16_eq_revBits, Nat.mod_eq_of_lt hx,
    Nat.mod_eq_of_lt (by rw [h16]; exact revBits_lt 16 x)]
  exact revBits_involutive 16 x (by omega)

theorem flip_uint16_involutive_witness :
    12345 < 65536 ∧ _flip_uint16 (_flip_uint16 12345) = 12345 :=
  ⟨by norm_num, flip_uint16_involutive 12345 (by norm_num)⟩

/-- C5: toggling `flipHorizontal` twice leaves the byte stream produced by
`write` identical to never having toggled it, for every buffer content and
every setting of the other flags. -/
theorem flipHorizontal_twice_write (s : State) :
    write (flipHorizontal (flipHorizontal s)) = write s := by
  have h : flipHorizontal (flipHorizontal s) = s := by
    simp [flipHorizontal]
  rw [h]

/-- C7: `setRowIntPin` encodes both booleans into one command byte, with
`act` ANDed with `row_int` before the shift: `(true, true)` sends
`ROWINT ||| 0b11`, `(false, true)` sends `ROWINT ||| 0b00`, and `act` is
ignored whenever `row_int` is false. -/
theorem setRowIntPin_encoding :
    setRowIntPinByte true true = HT16K33_CMD_ROWINT ||| 3 ∧
    setRowIntPinByte false true = HT16K33_CMD_ROWINT ||| 0 ∧
    (∀ act, setRowIntPinByte false act = HT16K33_CMD_ROWINT ||| 0) := by
  refine ⟨by decide, by decide, fun act => ?_⟩
  cases act <;> decide

/-- C9: the orientation operations mutate only their flag(s): none of
`reverse`, `flipVertical`, `flipHorizontal`, `resetOrientation` changes any
pixel-buffer row word. -/
theorem orientation_ops_fix_buffer (s : State) :
    (reverse s).buffer = s.buffer ∧ (flipVertical s).buffer = s.buffer ∧
    (flipHorizontal s).buffer = s.buffer ∧ (resetOrientation s).buffer = s.buffer :=
  ⟨rfl, rfl, rfl, rfl⟩

/-- C10: `getKeyData` writes only elements 0 and 1 of the caller's 3-element
key buffer; element 2 keeps its prior content, whatever it was. -/
theorem getKeyData_preserves_out2 (bytes : List Nat) (o : Fin 3 → Nat) :
    (getKeyData bytes o).out 2 = o 2 := rfl

/-- The loop of `clear` zeroes every buffer row. -/
theorem clear_buffer_zero (s : State) : (clear s).buffer = fun _ => 0 := by
  funext i
  fin_cases i <;> rfl

/-- A state whose buffer is all-zero serializes every row slot as two zero
bytes, whatever the orientation flags. -/
theorem writeRow_zero_buffer (s : State) (hb : s.buffer = fun _ => 0) (r : Fin 8) :
    writeRow s r = [0, 0] := by
  have hf : _flip_uint16 0 = 0 := rfl
  simp [writeRow, hb, hf]

/-- C6: after `clear`, a `write` transmits the display-RAM command byte
followed by 16 zero data bytes, for every setting of the orientation flags. -/
theorem clear_write_sixteen_zero_bytes (s : State) :
    write (clear s) = HT16K33_CMD_RAM :: List.replicate 16 0 := by
  have hrow := writeRow_zero_buffer (clear s) (clear_buffer_zero s)
  have hfl : (List.finRange 8).flatMap (fun _ : Fin 8 => [0, 0]) = List.replicate 16 0 := by
    decide
  simp [write, hrow, hfl]

/-- Every element `bytes.getD i 0` of a list of byte values is a byte. -/
theorem getD_lt_256 (bytes : List Nat) (hb : ∀ x ∈ bytes, x < 256) (i : Nat) :
    bytes.getD i 0 < 256 := by
  rcases hbi : bytes[i]? with _ | x
  · simp [List.getD, hbi]
  · have hx := hb x (List.getElem?_mem hbi)
    simp [List.getD, hbi, hx]

/-- Decoded key words recover their two wire bytes: low byte is the first
byte read, high byte the second. -/
theorem key_word_bytes (lsb msb : Nat) (hl : lsb < 256) (hm : msb < 256) :
    ((msb <<< 8 ||| lsb) % 65536) &&& 0xFF = lsb ∧
    ((msb <<< 8 ||| lsb) % 65536) >>> 8 = msb := by
  rw [shiftLeft_or_eq_add msb lsb 8 (by omega)]
  have hlt : msb * 2 ^ 8 + lsb < 65536 := by omega
  rw [Nat.mod_eq_of_lt hlt, and_255_eq_mod _, Nat.shiftRight_eq_div_pow]
  omega

/-- C3: `getKeyData` first writes the key-data command address as register
select, then requests 6 bytes and decodes them into exactly 2 row words (the
third element of the output array is untouched), each assembled
little-byte-first: the first byte read is the low byte and the second the
high byte of `out[row]`. -/
theorem getKeyData_protocol (bytes : List Nat) (o : Fin 3 → Nat)
    (hb : ∀ x ∈ bytes, x < 256) :
    (getKeyData bytes o).regSelect = [HT16K33_CMD_KEYS] ∧
    (getKeyData bytes o).requestCount = 6 ∧
    ((getKeyData bytes o).out 0) &&& 0xFF = bytes.getD 0 0 ∧
    ((getKeyData bytes o).out 0) >>> 8 = bytes.getD 1 0 ∧
    ((getKeyData bytes o).out 1) &&& 0xFF = bytes.getD 2 0 ∧
    ((getKeyData bytes o).out 1) >>> 8 = bytes.getD 3 0 ∧
    (getKeyData bytes o).out 2 = o 2 := by
  have h0 := getD_lt_256 bytes hb 0
  have h1 := getD_lt_256 bytes hb 1
  have h2 := getD_lt_256 bytes hb 2
  have h3 := getD_lt_256 bytes hb 3
  have hw0 := key_word_bytes (bytes.getD 0 0) (bytes.getD 1 0) h0 h1
  have hw1 := key_word_bytes (bytes.getD 2 0) (bytes.getD 3 0) h2 h3
  refine ⟨rfl, rfl, ?_, ?_, ?_, ?_, rfl⟩
  · exact hw0.1
  · exact hw0.2
  · exact hw1.1
  · exact hw1.2

theorem getKeyData_protocol_witness :
    (∀ x ∈ [17, 2, 3, 4, 5, 6], x < 256) ∧
    ((getKeyData [17, 2, 3, 4, 5, 6] (fun _ => 9)).regSelect = [HT16K33_CMD_KEYS] ∧
      (getKeyData [17, 2, 3, 4, 5, 6] (fun _ => 9)).requestCount = 6 ∧
      ((getKeyData [17, 2, 3, 4, 5, 6] (fun _ => 9)).out 0) &&& 0xFF = [17, 2, 3, 4, 5, 6].getD 0 0 ∧
      ((getKeyData [17, 2, 3, 4, 5, 6] (fun _ => 9)).out 0) >>> 8 = [17, 2, 3, 4, 5, 6].getD 1 0 ∧
      ((getKeyData [17, 2, 3, 4, 5, 6] (fun _ => 9)).out 1) &&& 0xFF = [17, 2, 3, 4, 5, 6].getD 2 0 ∧
      ((getKeyData [17, 2, 3, 4, 5, 6] (fun _ => 9)).out 1) >>> 8 = [17, 2, 3, 4, 5, 6].getD 3 0 ∧
      (getKeyData [17, 2, 3, 4, 5, 6] (fun _ => 9)).out 2 = (fun _ : Fin 3 => 9) 2) :=
  ⟨by decide, getKeyData_protocol [17, 2, 3, 4, 5, 6] (fun _ => 9) (by decide)⟩

/-! ### setPixel set-then-clear (C2) -/

theorem updFin8_same (b : Fin 8 → Nat) (i : Fin 8) (v : Nat) : updFin8 b i v i = v := by
  simp [updFin8]

theorem updFin8_other (b : Fin 8 → Nat) (i : Fin 8) (v : Nat) (j : Fin 8) (h : j ≠ i) :
    updFin8 b i v j = b j := by
  simp [updFin8, h]

/-- The conversion C applies to an `int` argument passed to a `uint8_t`
parameter. -/
def uint8OfInt (i : Int) : Nat := (i % 256).toNat

/-- A state whose row 0 already has bit 0 lit. -/
def litState : State :=
  { buffer := fun _ => 1
    reversed := false
    vFlipped := false
    hFlipped := false }

/-- C2 as stated fails when the addressed bit is already lit: with buffer
row 0 = 1, `setPixel(0,0,1)` followed by `setPixel(0,0,0)` ends with bit
(0,0) clear although it was set before the two calls. -/
theorem setPixel_pair_counterexample :
    ((setPixel (setPixel litState 0 0 1) 0 0 0).buffer 0).testBit 0 = false ∧
    (litState.buffer 0).testBit 0 = true := by
  decide

/-- The set-then-clear pair always leaves the addressed bit clear. -/
theorem setPixel_set_clear_bit_clear (s : State) (c r : Nat) :
    ((setPixel (setPixel s c r 1) c r 0).buffer ⟨r % 8, by omega⟩).testBit (c % 16) = false := by
  have hR : (⟨r % 8, by omega⟩ : Fin 8) = ⟨r &&& 7, and_seven_lt r⟩ :=
    Fin.ext (and_seven_eq_mod r).symm
  have e1 : setPixel s c r 1 =
      { s with buffer := (updFin8 s.buffer ⟨r &&& 7, and_seven_lt r⟩
          ((s.buffer ⟨r &&& 7, and_seven_lt r⟩ ||| (1 <<< (c &&& 15))) % 65536)) } := rfl
  have e0 : ∀ t : State, setPixel t c r 0 =
      { t with buffer := (updFin8 t.buffer ⟨r &&& 7, and_seven_lt r⟩
          ((t.buffer ⟨r &&& 7, and_seven_lt r⟩ &&& (65535 ^^^ (1 <<< (c &&& 15)))) % 65536)) } :=
    fun t => rfl
  rw [hR, e1, e0]
  have h1 : c % 16 < 16 := by omega
  simp only [updFin8_same, and_fifteen_eq_mod,
    (show (65536 : Nat) = 2 ^ 16 by norm_num), Nat.testBit_mod_two_pow,
    Nat.testBit_and, Nat.testBit_xor, Nat.testBit_shiftLeft,
    (show (65535 : Nat) = 2 ^ 16 - 1 by norm_num), Nat.testBit_two_pow_sub_one]
  simp [h1, Nat.sub_self]

/-- C2 (amended): for every integer `col` and `row` and every starting
buffer state in which the bit at position `col mod 16` of row word
`row mod 8` is clear, `setPixel(col,row,1)` followed by `setPixel(col,row,0)`
restores that bit to the value it had before the two calls (the pair always
ends with the bit clear, so an initially set bit is not restored). -/
theorem setPixel_set_then_clear_restores (s : State) (col row : Int)
    (h : (s.buffer ⟨(row % 8).toNat, by omega⟩).testBit (col % 16).toNat = false) :
    ((setPixel (setPixel s (uint8OfInt col) (uint8OfInt row) 1)
        (uint8OfInt col) (uint8OfInt row) 0).buffer
      ⟨(row % 8).toNat, by omega⟩).testBit (col % 16).toNat =
    (s.buffer ⟨(row % 8).toNat, by omega⟩).testBit (col % 16).toNat := by
  have hc : (uint8OfInt col) % 16 = (col % 16).toNat := by unfold uint8OfInt; omega
  have hr : (uint8OfInt row) % 8 = (row % 8).toNat := by unfold uint8OfInt; omega
  have hfin : (⟨(row % 8).toNat, by omega⟩ : Fin 8) =
      ⟨(uint8OfInt row) % 8, by omega⟩ := Fin.ext hr.symm
  rw [h, hfin, ← hc]
  exact setPixel_set_clear_bit_clear s (uint8OfInt col) (uint8OfInt row)

theorem setPixel_set_then_clear_restores_witness :
    ((litState.buffer ⟨((10 : Int) % 8).toNat, by omega⟩).testBit ((-1 : Int) % 16).toNat
      = false) ∧
    ((setPixel (setPixel litState (uint8OfInt (-1)) (uint8OfInt 10) 1)
        (uint8OfInt (-1)) (uint8OfInt 10) 0).buffer
      ⟨((10 : Int) % 8).toNat, by omega⟩).testBit ((-1 : Int) % 16).toNat =
    (litState.buffer ⟨((10 : Int) % 8).toNat, by omega⟩).testBit ((-1 : Int) % 16).toNat :=
  ⟨by decide, setPixel_set_then_clear_restores litState (-1) 10 (by decide)⟩

/-! ### drawSprite16 (C8) -/

theorem drawBuf_succ (sp : Sprite16) (c r0 h : Nat) (b : Fin 8 → Nat) :
    drawBuf sp c r0 (h + 1) b =
      updFin8 (drawBuf sp c r0 h b) ⟨(h + r0) % 8, Nat.mod_lt _ (by omega)⟩
        ((drawBuf sp c r0 h b ⟨(h + r0) % 8, Nat.mod_lt _ (by omega)⟩ |||
          ((sp.readRow h <<< c) &&& 0xFFFF)) % 65536) := by
  unfold drawBuf
  rw [List.range_succ, List.foldl_append]
  rfl

/-- Rows of the buffer that no loop iteration addresses are untouched. -/
theorem drawBuf_not_hit (sp : Sprite16) (c r0 : Nat) :
    ∀ (h : Nat) (b : Fin 8 → Nat) (i : Fin 8),
      (∀ r, r < h → (r + r0) % 8 ≠ i.val) → drawBuf sp c r0 h b i = b i := by
  intro h
  induction h with
  | zero => intro b i _; rfl
  | succ n ih =>
    intro b i hne
    rw [drawBuf_succ, updFin8_other]
    · exact ih b i (fun r hr => hne r (by omega))
    · exact fun hcontra => hne n (by omega) (by rw [hcontra])

/-- A buffer row addressed by exactly one loop iteration receives the OR of
its previous content with the shifted, masked sprite row. -/
theorem drawBuf_hit (sp : Sprite16) (c r0 : Nat) :
    ∀ (h : Nat) (b : Fin 8 → Nat) (r : Nat), r < h →
      (∀ r2, r2 < h → r2 ≠ r → (r2 + r0) % 8 ≠ (r + r0) % 8) →
      drawBuf sp c r0 h b ⟨(r + r0) % 8, Nat.mod_lt _ (by omega)⟩ =
        (b ⟨(r + r0) % 8, Nat.mod_lt _ (by omega)⟩ |||
          ((sp.readRow r <<< c) &&& 0xFFFF)) % 65536 := by
  intro h
  induction h with
  | zero => intro b r hr _; omega
  | succ n ih =>
    intro b r hr hdist
    rw [drawBuf_succ]
    by_cases hrn : r = n
    · subst hrn
      rw [updFin8_same]
      have hpre : drawBuf sp c r0 r b ⟨(r + r0) % 8, Nat.mod_lt _ (by omega)⟩ =
          b ⟨(r + r0) % 8, Nat.mod_lt _ (by omega)⟩ :=
        drawBuf_not_hit sp c r0 r b _ (fun r2 h2 => hdist r2 (by omega) (by omega))
      rw [hpre]
    · have hlt : r < n := by omega
      rw [updFin8_other]
      · exact ih b r hlt (fun r2 h2 hne => hdist r2 (by omega) hne)
      · have hd := hdist n (by omega) (by omega)
        exact fun hcontra => hd (by
          have := congrArg Fin.val hcontra
          simpa using this.symm)

/-- C8: `drawSprite16` ORs, for each sprite row `r < height`, the value
`(readRow r <<< colOffset) &&& 0xFFFF` into buffer row `(r + rowOffset) % 8`
(already-lit bits stay lit), and with both offsets zero on a cleared buffer
the resulting rows equal the sprite's rows masked to 16 bits. -/
theorem drawSprite16_or_semantics (s : State) (sp : Sprite16) (colOffset rowOffset : Nat)
    (hh : sp.height ≤ 8) (hbuf : ∀ i, s.buffer i < 65536) :
    (∀ r (_hr : r < sp.height),
      (drawSprite16 s sp colOffset rowOffset).buffer
          ⟨(r + rowOffset) % 8, Nat.mod_lt _ (by omega)⟩ =
        s.buffer ⟨(r + rowOffset) % 8, Nat.mod_lt _ (by omega)⟩ |||
          ((sp.readRow r <<< colOffset) &&& 0xFFFF)) ∧
    (∀ r (hr : r < sp.height),
      (drawSprite16 (clear s) sp 0 0).buffer ⟨r, by omega⟩ =
        sp.readRow r &&& 0xFFFF) := by
  have hmask : ∀ x, x &&& 0xFFFF < 2 ^ 16 :=
    fun x => Nat.and_lt_two_pow x (by norm_num)
  constructor
  · intro r hr
    have hdist : ∀ r2, r2 < sp.height → r2 ≠ r →
        (r2 + rowOffset) % 8 ≠ (r + rowOffset) % 8 := by
      intro r2 h2 hne
      omega
    have hb := drawBuf_hit sp colOffset rowOffset sp.height s.buffer r hr hdist
    have h1 := hbuf ⟨(r + rowOffset) % 8, Nat.mod_lt _ (by omega)⟩
    have h2 := hmask (sp.readRow r <<< colOffset)
    have h3 : (s.buffer ⟨(r + rowOffset) % 8, Nat.mod_lt _ (by omega)⟩ |||
        ((sp.readRow r <<< colOffset) &&& 0xFFFF)) < 2 ^ 16 :=
      Nat.or_lt_two_pow (by omega) h2
    show drawBuf sp colOffset rowOffset sp.height s.buffer
        ⟨(r + rowOffset) % 8, Nat.mod_lt _ (by omega)⟩ =
      s.buffer ⟨(r + rowOffset) % 8, Nat.mod_lt _ (by omega)⟩ |||
        ((sp.readRow r <<< colOffset) &&& 0xFFFF)
    rw [hb]
    exact Nat.mod_eq_of_lt (by omega)
  · intro r hr
    have hdist : ∀ r2, r2 < sp.height → r2 ≠ r → (r2 + 0) % 8 ≠ (r + 0) % 8 := by
      intro r2 h2 hne
      omega
    have hfe : (⟨(r + 0) % 8, Nat.mod_lt _ (by omega)⟩ : Fin 8) = ⟨r, by omega⟩ :=
      Fin.ext (show (r + 0) % 8 = r by omega)
    have hb := drawBuf_hit sp 0 0 sp.height (clear s).buffer r hr hdist
    rw [hfe, clear_buffer_zero s] at hb
    simp only [Nat.shiftLeft_zero, Nat.zero_or] at hb
    show drawBuf sp 0 0 sp.height (clear s).buffer ⟨r, by omega⟩ = sp.readRow r &&& 0xFFFF
    rw [clear_buffer_zero s, hb]
    exact Nat.mod_eq_of_lt (by have := hmask (sp.readRow r); omega)

/-- Concrete sprite whose rows exceed 16 bits, to exercise the mask. -/
def spriteW : Sprite16 := { height := 2, readRow := fun r => 70000 + r }

/-- Concrete starting state for the sprite-drawing witness. -/
def stateW : State :=
  { buffer := fun i => i.val + 1
    reversed := false
    vFlipped := false
    hFlipped := false }

theorem drawSprite16_or_semantics_witness :
    (spriteW.height ≤ 8 ∧ ∀ i, stateW.buffer i < 65536) ∧
    (drawSprite16 stateW spriteW 1 3).buffer ⟨(0 + 3) % 8, Nat.mod_lt _ (by omega)⟩ =
      stateW.buffer ⟨(0 + 3) % 8, Nat.mod_lt _ (by omega)⟩ |||
        ((spriteW.readRow 0 <<< 1) &&& 0xFFFF) ∧
    (drawSprite16 (clear stateW) spriteW 0 0).buffer ⟨1, by omega⟩ =
      spriteW.readRow 1 &&& 0xFFFF :=
  ⟨⟨by decide, by decide⟩,
    (drawSprite16_or_semantics stateW spriteW 1 3 (by decide) (by decide)).1 0 (by decide),
    (drawSprite16_or_semantics stateW spriteW 1 3 (by decide) (by decide)).2 1 (by decide)⟩

end HT16K33
